import Mathlib

/-!
# Verification of the forum-post moderation and search-filter module

Shallow embedding of the content-moderation validator
(`posts/validators.py`, `BadLanguageValidator`) and the title search
filter used by the dashboard and task-list views
(`posts/views.py::dashboard`, `todo_app/views.py::index`), together
with proofs of the specified properties.

Strings are modelled as lists of characters; Python's `str.lower()`
becomes a character-wise `Char.toLower` map, and Python's `in`
(substring containment, also the semantics of the ORM's `icontains`
lookup) becomes an executable substring test.
-/

/-- A Python string, modelled as its list of characters. -/
abbrev Str := List Char

/-- `str.lower()`: character-wise lowercasing. -/
def lowerStr (s : Str) : Str := s.map Char.toLower

/-- Python's substring containment `needle in haystack`: `needle` is a
prefix of some suffix of `haystack`.  The empty needle is contained in
every haystack, including the empty one. -/
def isSubstring (needle : Str) : Str → Bool
  | [] => needle.isEmpty
  | c :: rest => needle.isPrefixOf (c :: rest) || isSubstring needle rest

/-- Outcome of validation: the validator either accepts the value or
raises `ValidationError(reason)`, modelled as a `rejected reason`
return value. -/
inductive ValidationResult where
  | accepted
  | rejected (reason : String)
deriving DecidableEq

/-- The built-in default blacklist from `BadLanguageValidator.__init__`:
`["bad_word_1", "bad_word_2", "bad_word_3"]`. -/
def defaultBadWords : List Str :=
  ["bad_word_1".toList, "bad_word_2".toList, "bad_word_3".toList]

/-- `BadLanguageValidator.__init__(bad_words=None)`: a caller-supplied
list is kept as is; `None` selects the built-in default list. -/
def initBadWords (badWords : Option (List Str)) : List Str :=
  match badWords with
  | none => defaultBadWords
  | some ws => ws

/-- `BadLanguageValidator.__call__(value)`: scan the blacklist in
order; on the first entry whose lowercasing is contained in the
lowercased value, raise `ValidationError("The text contains bad
language")`; if no entry matches, return normally (accept). -/
def validate (text : Str) (badWords : List Str) : ValidationResult :=
  match badWords with
  | [] => .accepted
  | w :: rest =>
    if isSubstring (lowerStr w) (lowerStr text) then
      .rejected "The text contains bad language"
    else
      validate text rest

/-- A forum post / task record: the fields the filter can see. -/
structure Record where
  title : Str
  content : Str
deriving DecidableEq

/-- The `title__icontains=query` predicate of a single record:
case-insensitive containment of the query in the title. -/
def matchesQuery (query : Str) (r : Record) : Bool :=
  isSubstring (lowerStr query) (lowerStr r.title)

/-- `qs.filter(title__icontains=query)` over an in-memory sequence:
keep, in order, exactly the records whose title contains the query
case-insensitively. -/
def filterRecords (records : List Record) (query : Str) : List Record :=
  records.filter (matchesQuery query)

/-- Python's `str.strip()`: drop whitespace from both ends (Django's
`CharField` applies it to the submitted query before validation). -/
def stripStr (s : Str) : Str :=
  ((s.dropWhile Char.isWhitespace).reverse.dropWhile Char.isWhitespace).reverse

/-- The `dashboard` view's record selection.  An absent `query` field
is cleaned to the empty string by the form (`required=False`), so the
filter runs with an empty query; a present value is stripped and then
checked against `max_length=100`: if it is too long the form is
invalid and the unfiltered record list is returned, otherwise the
cleaned query filters the records. -/
def dashboard (records : List Record) (rawQuery : Option Str) : List Record :=
  match rawQuery with
  | none => filterRecords records []
  | some q =>
    let cleaned := stripStr q
    if cleaned.length ≤ 100 then filterRecords records cleaned else records

/-- Example records used to instantiate the filter properties: the
record pair from the specification's worked example. -/
def specExampleRecords : List Record :=
  [⟨"Intro to Go".toList, []⟩, ⟨"Rust basics".toList, []⟩]

/-! ## Helper lemmas -/

/-- The executable substring test agrees with list-infix containment. -/
lemma isSubstring_iff (n : Str) : ∀ h : Str, isSubstring n h = true ↔ n <:+: h := by
  intro h
  induction h with
  | nil => simp [isSubstring, List.isEmpty_iff, List.infix_nil]
  | cons c rest ih =>
    simp [isSubstring, List.infix_cons_iff, List.isPrefixOf_iff_prefix, ih]

/-- The empty string is contained in every string. -/
lemma isSubstring_nil_left (h : Str) : isSubstring [] h = true := by
  cases h <;> simp [isSubstring, List.isPrefixOf]

/-- The validator returns either acceptance or the fixed rejection
message, and nothing else. -/
lemma validate_cases (t : Str) (bl : List Str) :
    validate t bl = .accepted ∨
      validate t bl = .rejected "The text contains bad language" := by
  induction bl with
  | nil => exact Or.inl rfl
  | cons w rest ih =>
    by_cases hw : isSubstring (lowerStr w) (lowerStr t) = true
    · exact Or.inr (by simp [validate, hw])
    · simpa [validate, hw] using ih

/-- Rejection happens exactly when some blacklist entry is contained
case-insensitively in the text. -/
lemma validate_rejected_iff (t : Str) (bl : List Str) :
    validate t bl = .rejected "The text contains bad language" ↔
      ∃ w ∈ bl, lowerStr w <:+: lowerStr t := by
  induction bl with
  | nil => simp [validate]
  | cons w rest ih =>
    simp only [validate]
    by_cases hw : isSubstring (lowerStr w) (lowerStr t) = true
    · rw [if_pos hw]
      constructor
      · intro _
        exact ⟨w, List.mem_cons_self w rest, (isSubstring_iff _ _).mp hw⟩
      · intro _
        rfl
    · rw [if_neg hw, ih]
      constructor
      · rintro ⟨x, hx, hinf⟩
        exact ⟨x, List.mem_cons_of_mem _ hx, hinf⟩
      · rintro ⟨x, hx, hinf⟩
        rcases List.mem_cons.mp hx with h1 | h1
        · subst h1
          exact absurd ((isSubstring_iff _ _).mpr hinf) hw
        · exact ⟨x, h1, hinf⟩

/-- Acceptance happens exactly when no blacklist entry is contained
case-insensitively in the text. -/
lemma validate_accepted_iff (t : Str) (bl : List Str) :
    validate t bl = .accepted ↔
      ¬ ∃ w ∈ bl, lowerStr w <:+: lowerStr t := by
  constructor
  · intro ha hex
    have hr := (validate_rejected_iff t bl).mpr hex
    rw [ha] at hr
    cases hr
  · intro hnot
    rcases validate_cases t bl with h | h
    · exact h
    · exact absurd ((validate_rejected_iff t bl).mp h) hnot

/-- Filtering with the empty query keeps every record. -/
lemma filterRecords_nil_query (records : List Record) :
    filterRecords records [] = records := by
  refine List.filter_eq_self.mpr ?_
  intro r _
  simpa [matchesQuery, lowerStr] using isSubstring_nil_left (lowerStr r.title)

/-- Membership in the filter output is membership in the input plus
case-insensitive containment of the query in the title. -/
lemma mem_filterRecords_iff (records : List Record) (q : Str) (r : Record) :
    r ∈ filterRecords records q ↔
      r ∈ records ∧ lowerStr q <:+: lowerStr r.title := by
  simp [filterRecords, List.mem_filter, matchesQuery, isSubstring_iff]

/-! ## Claim theorems -/

/-- C1: for every text and blacklist, `validate` returns
`Rejected("The text contains bad language")` exactly when some
blacklist entry is contained in the text as a case-insensitive
substring, and returns `Accepted` otherwise. -/
theorem validate_rejects_iff_blacklisted (t : Str) (bl : List Str) :
    (validate t bl = .rejected "The text contains bad language" ↔
      ∃ w ∈ bl, lowerStr w <:+: lowerStr t) ∧
    (validate t bl = .accepted ↔
      ¬ ∃ w ∈ bl, lowerStr w <:+: lowerStr t) :=
  ⟨validate_rejected_iff t bl, validate_accepted_iff t bl⟩

/-- C2: for every record sequence and non-empty query, the filter
output is an order-preserving subsequence of the input, and a record
is in the output exactly when it is in the input and its case-folded
title contains the case-folded query as a substring. -/
theorem filterRecords_spec (records : List Record) (q : Str) (hq : q ≠ []) :
    (filterRecords records q).Sublist records ∧
    ∀ r, r ∈ filterRecords records q ↔
      r ∈ records ∧ lowerStr q <:+: lowerStr r.title :=
  ⟨List.filter_sublist records, fun r => mem_filterRecords_iff records q r⟩

/-- Witness for C2 at the specification's worked example: the query
`"go"` over `[⟨"Intro to Go"⟩, ⟨"Rust basics"⟩]`. -/
theorem filterRecords_spec_witness :
    ("go".toList ≠ ([] : Str)) ∧
    ((filterRecords specExampleRecords "go".toList).Sublist specExampleRecords ∧
      ∀ r, r ∈ filterRecords specExampleRecords "go".toList ↔
        r ∈ specExampleRecords ∧
          lowerStr "go".toList <:+: lowerStr r.title) :=
  ⟨by decide, filterRecords_spec specExampleRecords "go".toList (by decide)⟩

/-- C3: the empty query is an identity for the filter: every record is
returned unchanged, in its original position. -/
theorem filterRecords_empty_query_identity (records : List Record) :
    filterRecords records [] = records :=
  filterRecords_nil_query records

/-- Counterexample to C4 as stated: when the supplied blacklist
contains the empty string, the empty text is rejected, not accepted,
because the empty string is a substring of every string. -/
theorem validate_empty_text_counterexample :
    validate [] [([] : Str)] = .rejected "The text contains bad language" ∧
    validate [] [([] : Str)] ≠ .accepted := by
  constructor <;> decide

/-- C4 (amended): for every blacklist none of whose entries is the
empty string, the empty text is accepted; and for every text, the
empty blacklist accepts. -/
theorem validate_empty_inputs_accepted (bl : List Str) (t : Str)
    (hbl : ∀ w ∈ bl, w ≠ []) :
    validate [] bl = .accepted ∧ validate t [] = .accepted := by
  refine ⟨?_, rfl⟩
  induction bl with
  | nil => rfl
  | cons w rest ih =>
    have hw : w ≠ [] := hbl w (List.mem_cons_self w rest)
    have hsub : isSubstring (lowerStr w) (lowerStr []) ≠ true := by
      cases w with
      | nil => exact absurd rfl hw
      | cons c cs => simp [lowerStr, isSubstring]
    simp only [validate, if_neg hsub]
    exact ih fun x hx => hbl x (List.mem_cons_of_mem _ hx)

/-- Witness for C4 (amended) at the default blacklist and text `"x"`. -/
theorem validate_empty_inputs_accepted_witness :
    (∀ w ∈ defaultBadWords, w ≠ []) ∧
    (validate [] defaultBadWords = .accepted ∧
      validate "x".toList [] = .accepted) :=
  ⟨by decide, validate_empty_inputs_accepted defaultBadWords "x".toList (by decide)⟩

/-- C5: an absent caller blacklist selects the built-in default of
exactly three distinct placeholder words, and the specification's
example text containing `bad_word_2` is rejected against it. -/
theorem default_blacklist_spec :
    initBadWords none = defaultBadWords ∧
    defaultBadWords.length = 3 ∧
    defaultBadWords.Nodup ∧
    validate "this has bad_word_2 inside".toList (initBadWords none)
      = .rejected "The text contains bad language" := by
  refine ⟨rfl, rfl, by decide, by decide⟩

/-- C6: the dashboard's filtering never fails: an absent query field
or a malformed one (longer than the form's 100-character limit after
stripping) excludes nothing, so the full record sequence is
returned. -/
theorem dashboard_never_fails (records : List Record) (rawQuery : Option Str)
    (h : rawQuery = none ∨
      ∃ q, rawQuery = some q ∧ 100 < (stripStr q).length) :
    dashboard records rawQuery = records := by
  rcases h with h | ⟨q, hq, hlen⟩
  · subst h
    exact filterRecords_nil_query records
  · subst hq
    simp only [dashboard]
    rw [if_neg (by omega)]

/-- Witness for C6 at a malformed query of 101 characters. -/
theorem dashboard_never_fails_witness :
    ((some (List.replicate 101 'a') = (none : Option Str)) ∨
      ∃ q, some (List.replicate 101 'a') = some q ∧
        100 < (stripStr q).length) ∧
    dashboard [(⟨"Intro to Go".toList, []⟩ : Record)]
      (some (List.replicate 101 'a'))
      = [(⟨"Intro to Go".toList, []⟩ : Record)] :=
  ⟨Or.inr ⟨List.replicate 101 'a', rfl, by decide⟩,
    dashboard_never_fails _ _ (Or.inr ⟨List.replicate 101 'a', rfl, by decide⟩)⟩

/-- C7: filtering twice with the same query equals filtering once. -/
theorem filterRecords_idempotent (records : List Record) (q : Str) :
    filterRecords (filterRecords records q) q = filterRecords records q := by
  simp [filterRecords, List.filter_filter]

/-- C8: both operations are read-only: the filter output is a sublist
of its input — each returned record is an input record with all its
fields unchanged, in the original order — and the validator produces
only a verdict value (acceptance or the fixed rejection), never a
modified record. -/
theorem operations_readonly (records : List Record) (q t : Str) (bl : List Str) :
    (filterRecords records q).Sublist records ∧
    (validate t bl = .accepted ∨
      validate t bl = .rejected "The text contains bad language") :=
  ⟨List.filter_sublist records, validate_cases t bl⟩

/-- C9: both operations are deterministic: equal inputs give equal
outputs, and the filter output preserves the input's relative order
(it is a sublist of the input). -/
theorem operations_deterministic (t₁ t₂ : Str) (bl₁ bl₂ : List Str)
    (rs₁ rs₂ : List Record) (q₁ q₂ : Str)
    (ht : t₁ = t₂) (hb : bl₁ = bl₂) (hr : rs₁ = rs₂) (hq : q₁ = q₂) :
    validate t₁ bl₁ = validate t₂ bl₂ ∧
    filterRecords rs₁ q₁ = filterRecords rs₂ q₂ ∧
    (filterRecords rs₁ q₁).Sublist rs₁ := by
  subst ht
  subst hb
  subst hr
  subst hq
  exact ⟨rfl, rfl, List.filter_sublist rs₁⟩

/-- Witness for C9 at concrete equal inputs. -/
theorem operations_deterministic_witness :
    ("hi".toList = "hi".toList) ∧ (defaultBadWords = defaultBadWords) ∧
    (specExampleRecords = specExampleRecords) ∧
    ("go".toList = "go".toList) ∧
    (validate "hi".toList defaultBadWords
        = validate "hi".toList defaultBadWords ∧
      filterRecords specExampleRecords "go".toList
        = filterRecords specExampleRecords "go".toList ∧
      (filterRecords specExampleRecords "go".toList).Sublist
        specExampleRecords) :=
  ⟨rfl, rfl, rfl, rfl,
    operations_deterministic "hi".toList "hi".toList defaultBadWords
      defaultBadWords specExampleRecords specExampleRecords
      "go".toList "go".toList rfl rfl rfl rfl⟩

/-- C10: a blacklist containing the empty string rejects every text,
including the empty text, since the empty string is a substring of
every string. -/
theorem validate_empty_entry_rejects (t : Str) (bl : List Str)
    (h : ([] : Str) ∈ bl) :
    validate t bl = .rejected "The text contains bad language" := by
  induction bl with
  | nil => cases h
  | cons w rest ih =>
    by_cases hw : isSubstring (lowerStr w) (lowerStr t) = true
    · simp [validate, hw]
    · rcases List.mem_cons.mp h with h1 | h1
      · exfalso
        apply hw
        rw [← h1]
        simpa [lowerStr] using isSubstring_nil_left (lowerStr t)
      · simp only [validate, if_neg hw]
        exact ih h1

/-- Witness for C10 at the text `"hello"` and a blacklist whose second
entry is the empty string. -/
theorem validate_empty_entry_rejects_witness :
    (([] : Str) ∈ ["x".toList, ([] : Str)]) ∧
    validate "hello".toList ["x".toList, ([] : Str)]
      = .rejected "The text contains bad language" :=
  ⟨by decide, validate_empty_entry_rejects "hello".toList _ (by decide)⟩
